import Mathlib

/-!
# Verification of the synchronous transaction limbo (`src/box/txn_limbo.c`)

A shallow embedding of the limbo data model and operations, translated from
the C source, together with proofs about the spec's claims.

Modelling conventions:
* machine integers become `Int`/`Nat`; the sentinel lsn `-1` is kept as the
  `Int` value `-1`;
* the intrusive `rlist` queue becomes a `List` (head of the list = head of
  the queue = oldest entry);
* the `vclock` becomes a total function `Nat → Int` (components default to
  `0`, as after `vclock_create`), iterated over the fixed component range
  `0 .. VCLOCK_MAX - 1`;
* the globals `instance_id`, `replication_synchro_quorum` become explicit
  parameters `iid`, `quorum`;
* fallible allocation (`region_alloc_object`) and the fallible journal write
  (`txn_limbo_write`) are driven by explicit boolean oracles `allocOk`,
  `writeOk`;
* fiber sleeps cannot be embedded; the waiting entry points are modelled by
  their immediate-return paths plus an outcome oracle for the sleeping path.
-/

namespace Tarantool

/-- `REPLICA_ID_NIL`: the reserved "no replica" identifier. -/
def REPLICA_ID_NIL : Nat := 0

/-- `VCLOCK_MAX`: number of components of a vclock. -/
def VCLOCK_MAX : Nat := 32

/-- The transaction flags the limbo reads (`TXN_WAIT_SYNC`, `TXN_WAIT_ACK`)
and the WAL-write signature the limbo inspects (`txn->signature`). -/
structure Txn where
  wait_sync : Bool
  wait_ack  : Bool
  signature : Int
deriving DecidableEq, Repr

/-- `struct txn_limbo_entry`: bookkeeping of one queued transaction. -/
structure TxnLimboEntry where
  txn : Txn
  lsn : Int
  ack_count : Nat
  is_commit : Bool
  is_rollback : Bool
deriving DecidableEq, Repr

instance : Inhabited TxnLimboEntry :=
  ⟨{ txn := { wait_sync := false, wait_ack := false, signature := 0 },
     lsn := -1, ack_count := 0, is_commit := false, is_rollback := false }⟩

/-- `txn_limbo_entry_is_complete`. -/
def TxnLimboEntry.is_complete (e : TxnLimboEntry) : Bool :=
  e.is_commit || e.is_rollback

/-- `struct txn_limbo`: the queue (head first), the owner (`instance_id`),
the peer position vector and the rollback counter. -/
structure TxnLimbo where
  queue : List TxnLimboEntry
  instance_id : Nat
  vclock : Nat → Int
  rollback_count : Nat

/-- `txn_limbo_create`: empty queue, nil owner, zero vclock. -/
def txn_limbo_create : TxnLimbo :=
  { queue := [], instance_id := REPLICA_ID_NIL, vclock := fun _ => 0,
    rollback_count := 0 }

/-- Replace the element at index `i` (identity when out of range); used to
model in-place mutation of one queued entry. -/
def listModify (f : α → α) : Nat → List α → List α
  | _, [] => []
  | 0, a :: l => f a :: l
  | n + 1, a :: l => a :: listModify f n l

/-- The ack-counting loop of `txn_limbo_assign_local_lsn` (lines 145-149):
`vclock_foreach(&iter, vc) ack_count += vc.lsn >= lsn;`. -/
def vclockCountGE (vc : Nat → Int) (lsn : Int) : Nat :=
  (List.range VCLOCK_MAX).foldl (fun acc i => if lsn ≤ vc i then acc + 1 else acc) 0

/-- `vclock_follow`: record that peer `r` has acknowledged up to `lsn`. -/
def vclockFollow (vc : Nat → Int) (r : Nat) (lsn : Int) : Nat → Int :=
  fun i => if i = r then lsn else vc i

/-- The errors `txn_limbo_append` reports via `diag_set`. -/
inductive LimboError where
  | foreignSync (origin : Nat)   -- ER_UNCOMMITTED_FOREIGN_SYNC_TXNS
  | outOfMemory                  -- OutOfMemory
deriving DecidableEq, Repr

/-- The allocation/push tail of `txn_limbo_append` (lines 66-79); `allocOk`
is the outcome of `region_alloc_object`. -/
def appendAlloc (L : TxnLimbo) (txn : Txn) (allocOk : Bool) :
    TxnLimbo × Option LimboError :=
  if allocOk then
    let e : TxnLimboEntry :=
      { txn := txn, lsn := -1, ack_count := 0,
        is_commit := false, is_rollback := false }
    ({ L with queue := L.queue ++ [e] }, none)
  else (L, some LimboError.outOfMemory)

/-- `txn_limbo_append` (lines 50-80).  Returns the post-call limbo (the C
code mutates the global limbo even on the out-of-memory path, after having
possibly adopted the new origin) and the reported error, if any. -/
def txn_limbo_append (iid : Nat) (L : TxnLimbo) (id0 : Nat) (txn : Txn)
    (allocOk : Bool) : TxnLimbo × Option LimboError :=
  let id := if id0 = 0 then iid else id0
  if L.instance_id ≠ id then
    if L.instance_id = REPLICA_ID_NIL ∨ L.queue = [] then
      appendAlloc { L with instance_id := id } txn allocOk
    else
      (L, some (LimboError.foreignSync L.instance_id))
  else
    appendAlloc L txn allocOk

/-- The entry mutation of `txn_limbo_assign_local_lsn` (lines 138-151):
record the position and re-count acknowledgements from the vclock. -/
def assignLocalUpdate (vc : Nat → Int) (lsn : Int) (e : TxnLimboEntry) :
    TxnLimboEntry :=
  { e with lsn := lsn, ack_count := vclockCountGE vc lsn }

/-- `txn_limbo_assign_local_lsn` (lines 128-152). -/
def txn_limbo_assign_local_lsn (L : TxnLimbo) (i : Nat) (lsn : Int) : TxnLimbo :=
  { L with queue := listModify (assignLocalUpdate L.vclock lsn) i L.queue }

/-- `txn_limbo_assign_remote_lsn` (lines 115-126): record the position only. -/
def txn_limbo_assign_remote_lsn (L : TxnLimbo) (i : Nat) (lsn : Int) : TxnLimbo :=
  { L with queue := listModify (fun e => { e with lsn := lsn }) i L.queue }

/-- `txn_limbo_assign_lsn` (lines 154-162): dispatch on whether the limbo
owner is this instance. -/
def txn_limbo_assign_lsn (iid : Nat) (L : TxnLimbo) (i : Nat) (lsn : Int) :
    TxnLimbo :=
  if L.instance_id = iid then txn_limbo_assign_local_lsn L i lsn
  else txn_limbo_assign_remote_lsn L i lsn

/-- The queue walk of `txn_limbo_read_confirm` (lines 306-342): pop entries
from the head until a sync entry beyond the confirmed position (or not yet
assigned a position) is met.  Popped entries get `is_commit` and leave the
queue; the function returns the remaining queue. -/
def txn_limbo_read_confirm_q (lsn : Int) : List TxnLimboEntry → List TxnLimboEntry
  | [] => []
  | e :: rest =>
    if e.txn.wait_ack ∧ (lsn < e.lsn ∨ e.lsn = -1) then e :: rest
    else txn_limbo_read_confirm_q lsn rest

/-- `txn_limbo_read_confirm` at the limbo level. -/
def txn_limbo_read_confirm (L : TxnLimbo) (lsn : Int) : TxnLimbo :=
  { L with queue := txn_limbo_read_confirm_q lsn L.queue }

/-- The two tail-first walks of `txn_limbo_read_rollback` (lines 355-393),
expressed on the *reversed* queue (first element = queue tail):
find `last_rollback` (the walk continues over async entries, breaks at a
sync entry with `lsn < pos`) and abort every entry from the tail through
`last_rollback`.  `none` means `last_rollback == NULL` (no-op); `some r`
returns the remaining (still reversed) queue. -/
def rollbackRevAux (lsn : Int) : List TxnLimboEntry → Option (List TxnLimboEntry)
  | [] => none
  | e :: rest =>
    if e.txn.wait_ack ∧ e.lsn < lsn then none
    else if e.txn.wait_ack then
      some ((rollbackRevAux lsn rest).getD rest)
    else
      rollbackRevAux lsn rest

/-- `txn_limbo_read_rollback` on the queue alone. -/
def txn_limbo_read_rollback_q (lsn : Int) (q : List TxnLimboEntry) :
    List TxnLimboEntry :=
  match rollbackRevAux lsn q.reverse with
  | none => q
  | some r => r.reverse

/-- `txn_limbo_read_rollback` at the limbo level; every popped entry goes
through `txn_limbo_pop`, which increments `rollback_count`. -/
def txn_limbo_read_rollback (L : TxnLimbo) (lsn : Int) : TxnLimbo :=
  match rollbackRevAux lsn L.queue.reverse with
  | none => L
  | some r =>
    { L with queue := r.reverse,
             rollback_count := L.rollback_count + (L.queue.length - r.length) }

/-- The queue walk of `txn_limbo_ack` (lines 403-425), threading the
`confirm_lsn` accumulator (initially `-1`):
* `break` when `e->lsn > lsn`;
* async entries and sync entries with `e->lsn <= prev_lsn` are skipped;
* otherwise the entry's `ack_count` is incremented, and if it reaches the
  quorum the accumulator becomes this entry's lsn.
Returns the updated queue and the final `confirm_lsn`. -/
def ackScan (quorum : Nat) (prev lsn : Int) :
    List TxnLimboEntry → Int → List TxnLimboEntry × Int
  | [], confirm => ([], confirm)
  | e :: rest, confirm =>
    if lsn < e.lsn then (e :: rest, confirm)
    else if e.txn.wait_ack = false then
      let p := ackScan quorum prev lsn rest confirm
      (e :: p.1, p.2)
    else if e.lsn ≤ prev then
      let p := ackScan quorum prev lsn rest confirm
      (e :: p.1, p.2)
    else
      let e' := { e with ack_count := e.ack_count + 1 }
      if e'.ack_count < quorum then
        let p := ackScan quorum prev lsn rest confirm
        (e' :: p.1, p.2)
      else
        let p := ackScan quorum prev lsn rest e'.lsn
        (e' :: p.1, p.2)

/-- The scan of `txn_limbo_ack` applied to a limbo: `prev_lsn` is read from
the vclock before the `vclock_follow`. -/
def txn_limbo_ack_scan (quorum : Nat) (L : TxnLimbo) (r : Nat) (lsn : Int) :
    List TxnLimboEntry × Int :=
  ackScan quorum (L.vclock r) lsn L.queue (-1)

/-- `txn_limbo_ack` (lines 395-436).  `writeOk` is the outcome of the
`txn_limbo_write_confirm` journal write: on failure the function returns
without applying the confirmation (lines 428-434). -/
def txn_limbo_ack (quorum : Nat) (L : TxnLimbo) (r : Nat) (lsn : Int)
    (writeOk : Bool) : TxnLimbo :=
  if L.queue = [] then L
  else
    let s := txn_limbo_ack_scan quorum L r lsn
    let L' : TxnLimbo :=
      { L with vclock := vclockFollow L.vclock r lsn, queue := s.1 }
    if s.2 = -1 then L'
    else if writeOk then
      { L' with queue := txn_limbo_read_confirm_q s.2 s.1 }
    else L'

/-- The queue walk of `txn_limbo_on_parameters_change` (lines 554-568):
no `break` — the whole queue is scanned, `confirm_lsn` ending as the lsn of
the last sync entry whose `ack_count` reaches the quorum. -/
def paramsScan (quorum : Nat) : List TxnLimboEntry → Int → Int
  | [], confirm => confirm
  | e :: rest, confirm =>
    if e.txn.wait_ack = false then paramsScan quorum rest confirm
    else if e.ack_count < quorum then paramsScan quorum rest confirm
    else paramsScan quorum rest e.lsn

/-- `txn_limbo_on_parameters_change` (lines 549-584); the CONFIRM write is
fatal on failure (`panic`), so only the successful write is modelled. -/
def txn_limbo_on_parameters_change (quorum : Nat) (L : TxnLimbo) : TxnLimbo :=
  if L.queue = [] then L
  else
    let confirm := paramsScan quorum L.queue (-1)
    if 0 < confirm then { L with queue := txn_limbo_read_confirm_q confirm L.queue }
    else L

/-- The scan of `txn_limbo_force_empty` (lines 526-537): the lsn of the last
sync entry at or below `confirm_lsn`, and the lsn of the first sync entry
beyond it (where the walk breaks). -/
def forceEmptyScan (confirm_lsn : Int) :
    List TxnLimboEntry → Option Int × Option Int
  | [] => (none, none)
  | e :: rest =>
    if e.txn.wait_ack then
      if e.lsn ≤ confirm_lsn then
        let p := forceEmptyScan confirm_lsn rest
        (some (p.1.getD e.lsn), p.2)
      else (none, some e.lsn)
    else forceEmptyScan confirm_lsn rest

/-- `txn_limbo_force_empty` (lines 523-547): write + apply CONFIRM for the
committed prefix, then write + apply ROLLBACK for the rest. -/
def txn_limbo_force_empty (L : TxnLimbo) (confirm_lsn : Int) : TxnLimbo :=
  let s := forceEmptyScan confirm_lsn L.queue
  let L1 := match s.1 with
    | some c => txn_limbo_read_confirm L c
    | none => L
  match s.2 with
  | some c => txn_limbo_read_rollback L1 c
  | none => L1

/-- The cascading abort of the `do_rollback` path of
`txn_limbo_wait_complete` (lines 208-220): the driver is the queue head, so
every entry from the tail through the head is aborted (`txn_limbo_abort`
pops from the tail and increments `rollback_count`). -/
def txn_limbo_timeout_rollback (L : TxnLimbo) : TxnLimbo :=
  { L with queue := [], rollback_count := L.rollback_count + L.queue.length }

/-- Results of the blocking entry points. -/
inductive WaitResult where
  | ok             -- return 0
  | syncRollback   -- ER_SYNC_ROLLBACK
  | quorumTimeout  -- ER_SYNC_QUORUM_TIMEOUT
deriving DecidableEq, Repr

/-- What eventually happens to a sleeping waiter; stands in for the
unembeddable fiber suspension. -/
inductive WaitOutcome where
  | confirmed
  | rolledBack
  | timedOut
deriving DecidableEq, Repr

/-- `txn_limbo_wait_complete` (lines 167-241) from the point of view of one
entry.  The entry-complete fast path (lines 171-172 jumping to lines
224-240) returns without sleeping; otherwise the result is dictated by the
sleep's outcome (condition signalled with the entry committed / rolled
back, or the synchro timeout expiring and this fiber driving the rollback). -/
def txn_limbo_wait_complete (e : TxnLimboEntry) (outcome : WaitOutcome) :
    WaitResult :=
  if e.is_complete then
    if e.is_rollback then WaitResult.syncRollback else WaitResult.ok
  else
    match outcome with
    | WaitOutcome.confirmed => WaitResult.ok
    | WaitOutcome.rolledBack => WaitResult.syncRollback
    | WaitOutcome.timedOut => WaitResult.quorumTimeout

/-- `txn_limbo_wait_confirm` (lines 475-521): immediate success on an empty
limbo (lines 478-479); otherwise triggers are attached to the tail entry
and the result is dictated by the sleep's outcome. -/
def txn_limbo_wait_confirm (L : TxnLimbo) (outcome : WaitOutcome) : WaitResult :=
  if L.queue = [] then WaitResult.ok
  else
    match outcome with
    | WaitOutcome.confirmed => WaitResult.ok
    | WaitOutcome.rolledBack => WaitResult.syncRollback
    | WaitOutcome.timedOut => WaitResult.quorumTimeout

/-- One externally triggered limbo operation, with the preconditions the C
code states as assertions (or that its callers guarantee):
* `append` requires `TXN_WAIT_SYNC` (line 53);
* `assign_lsn` requires an unassigned sync entry, a positive lsn and a
  non-nil owner (lines 119-123 / 132-136);
* `ack` requires a valid replica id and a monotone position, as
  `vclock_follow` does;
* `read_confirm` / `read_rollback` require a non-nil owner
  (lines 309, 358);
* `timeout_rollback` (the `do_rollback` path of `txn_limbo_wait_complete`)
  requires a non-empty queue (line 190). -/
inductive LimboStep (iid : Nat) : TxnLimbo → TxnLimbo → Prop
  | append (L : TxnLimbo) (id0 : Nat) (txn : Txn) (allocOk : Bool)
      (hsync : txn.wait_sync = true) :
      LimboStep iid L (txn_limbo_append iid L id0 txn allocOk).1
  | assign_lsn (L : TxnLimbo) (i : Nat) (lsn : Int) (hi : i < L.queue.length)
      (hunassigned : (L.queue.get ⟨i, hi⟩).lsn = -1)
      (hack : (L.queue.get ⟨i, hi⟩).txn.wait_ack = true)
      (hpos : 0 < lsn) (hown : L.instance_id ≠ REPLICA_ID_NIL) :
      LimboStep iid L (txn_limbo_assign_lsn iid L i lsn)
  | ack (L : TxnLimbo) (quorum : Nat) (r : Nat) (lsn : Int) (writeOk : Bool)
      (hr : r < VCLOCK_MAX) (hmono : L.vclock r ≤ lsn) :
      LimboStep iid L (txn_limbo_ack quorum L r lsn writeOk)
  | read_confirm (L : TxnLimbo) (lsn : Int) (hown : L.instance_id ≠ REPLICA_ID_NIL) :
      LimboStep iid L (txn_limbo_read_confirm L lsn)
  | read_rollback (L : TxnLimbo) (lsn : Int) (hown : L.instance_id ≠ REPLICA_ID_NIL) :
      LimboStep iid L (txn_limbo_read_rollback L lsn)
  | params_change (L : TxnLimbo) (quorum : Nat) :
      LimboStep iid L (txn_limbo_on_parameters_change quorum L)
  | force_empty (L : TxnLimbo) (confirm_lsn : Int)
      (hown : L.instance_id ≠ REPLICA_ID_NIL) :
      LimboStep iid L (txn_limbo_force_empty L confirm_lsn)
  | timeout_rollback (L : TxnLimbo) (hne : L.queue ≠ []) :
      LimboStep iid L (txn_limbo_timeout_rollback L)

/-- Limbo states reachable from `txn_limbo_create` on an instance whose
local id is `iid`. -/
inductive Reachable (iid : Nat) : TxnLimbo → Prop
  | init : Reachable iid txn_limbo_create
  | step {L L' : TxnLimbo} : Reachable iid L → LimboStep iid L L' →
      Reachable iid L'

/-- Per-entry part of the limbo invariant:
* the ack counter never exceeds the number of peers whose recorded position
  is at or above the entry's position;
* an entry without a position has not collected any acks;
* an async entry (no `TXN_WAIT_ACK`) never gets a position. -/
def EntryInv (vc : Nat → Int) (e : TxnLimboEntry) : Prop :=
  e.ack_count ≤ vclockCountGE vc e.lsn ∧
  (e.lsn = -1 → e.ack_count = 0) ∧
  (e.txn.wait_ack = false → e.lsn = -1)

/-- The limbo invariant: non-negative peer positions plus `EntryInv` for
every queued entry. -/
def LimboInv (L : TxnLimbo) : Prop :=
  (∀ i, 0 ≤ L.vclock i) ∧ ∀ e ∈ L.queue, EntryInv L.vclock e

/-- A synchronous transaction (`TXN_WAIT_SYNC` and `TXN_WAIT_ACK`). -/
def syncTxn : Txn := { wait_sync := true, wait_ack := true, signature := 0 }

/-- An asynchronous transaction routed through the limbo
(`TXN_WAIT_SYNC` without `TXN_WAIT_ACK`). -/
def asyncTxn : Txn := { wait_sync := true, wait_ack := false, signature := 0 }

/-- Witness state: one local sync transaction appended on instance 1. -/
def wState1 : TxnLimbo := (txn_limbo_append 1 txn_limbo_create 0 syncTxn true).1

/-- Witness state: that transaction assigned the local WAL position 5. -/
def wState2 : TxnLimbo := txn_limbo_assign_lsn 1 wState1 0 5

/-- Witness state: the queue drained by a CONFIRM at position 5. -/
def wDrained : TxnLimbo := txn_limbo_read_confirm wState2 5

/-- Witness state: one async transaction appended on instance 1. -/
def wAsyncState : TxnLimbo :=
  (txn_limbo_append 1 txn_limbo_create 0 asyncTxn true).1

/-- The fresh entry `txn_limbo_append` pushes (lines 73-77). -/
def freshEntry (txn : Txn) : TxnLimboEntry :=
  { txn := txn, lsn := -1, ack_count := 0, is_commit := false,
    is_rollback := false }

/-- The spec's back-applied-acks scenario: peer 2 already acknowledged
position 20 and the vclock recorded it. -/
def wC5 : TxnLimbo :=
  { queue := [freshEntry syncTxn], instance_id := 1,
    vclock := fun i => if i = 2 then 20 else 0, rollback_count := 0 }

/-- The confirm position the `txn_limbo_on_parameters_change` scan actually
computes, stated the way the amended claim words it: the lsn of the last
sync entry anywhere in the queue whose `ack_count` has reached the quorum,
`-1` when there is none. -/
def lastSyncAtQuorumLsn (quorum : Nat) (q : List TxnLimboEntry) : Int :=
  match q.reverse.find?
      (fun e => e.txn.wait_ack && decide (quorum ≤ e.ack_count)) with
  | some e => e.lsn
  | none => -1

/-- C3 counterexample: queue `[sync(lsn 10, acks 0), sync(lsn 11, acks 1)]`
with quorum 1.  The longest prefix whose sync entries are all at quorum is
empty (the head has 0 acks), so the claim prescribes that nothing be
confirmed; but `txn_limbo_on_parameters_change` scans without stopping,
finds the *last* sync entry at quorum (lsn 11), and confirms both entries —
including the below-quorum head. -/
def cexC3 : TxnLimbo :=
  { queue := [{ txn := syncTxn, lsn := 10, ack_count := 0,
                is_commit := false, is_rollback := false },
              { txn := syncTxn, lsn := 11, ack_count := 1,
                is_commit := false, is_rollback := false }],
    instance_id := 1, vclock := fun _ => 0, rollback_count := 0 }

/-- C6 counterexample: queue `[sync(lsn 10), sync(lsn −1)]` — an assigned
sync entry followed by one whose WAL write is still in flight.  The
earliest sync entry with `lsn ≥ 10` is the head, so the claim prescribes
aborting the whole queue; but the tail-first walk of
`txn_limbo_read_rollback` breaks immediately at the unassigned tail entry
(`−1 < 10`), finds no `last_rollback`, and aborts nothing. -/
def cexC6 : TxnLimbo :=
  { queue := [{ txn := syncTxn, lsn := 10, ack_count := 0,
                is_commit := false, is_rollback := false },
              { txn := syncTxn, lsn := -1, ack_count := 0,
                is_commit := false, is_rollback := false }],
    instance_id := 1, vclock := fun _ => 0, rollback_count := 0 }

/-- The spec's external-rollback scenario: sync entries at lsns 10, 11, 12. -/
def wC6 : TxnLimbo :=
  { queue := [{ txn := syncTxn, lsn := 10, ack_count := 0,
                is_commit := false, is_rollback := false },
              { txn := syncTxn, lsn := 11, ack_count := 0,
                is_commit := false, is_rollback := false },
              { txn := syncTxn, lsn := 12, ack_count := 0,
                is_commit := false, is_rollback := false }],
    instance_id := 1, vclock := fun _ => 0, rollback_count := 0 }

section CountLemmas

variable {α : Type}

/-- A conditional-increment fold is a `countP`. -/
theorem foldl_count (P : α → Prop) [DecidablePred P] (l : List α) :
    ∀ acc : Nat,
      l.foldl (fun a i => if P i then a + 1 else a) acc =
        acc + l.countP (fun i => decide (P i)) := by
  induction l with
  | nil => intro acc; simp
  | cons a l ih =>
    intro acc
    by_cases h : P a <;>
      simp [List.countP_cons, h, ih, Nat.add_assoc, Nat.add_comm]

/-- `countP` is monotone in the predicate. -/
theorem countP_le_countP (l : List α) (p q : α → Bool)
    (h : ∀ x ∈ l, p x = true → q x = true) : l.countP p ≤ l.countP q := by
  induction l with
  | nil => simp
  | cons a l ih =>
    have ha := h a (by simp)
    have hl : ∀ x ∈ l, p x = true → q x = true := fun x hx => h x (by simp [hx])
    have hrec := ih hl
    by_cases hpa : p a = true
    · rw [List.countP_cons_of_pos _ _ hpa, List.countP_cons_of_pos _ _ (ha hpa)]
      omega
    · rw [List.countP_cons_of_neg _ _ hpa]
      cases hqa : q a with
      | true => rw [List.countP_cons_of_pos _ _ hqa]; omega
      | false => rw [List.countP_cons_of_neg _ _ (by simp [hqa])]; exact hrec

/-- `countP` grows strictly when the predicate is weakened and some listed
element moves from false to true. -/
theorem countP_succ_le_countP (l : List α) (p q : α → Bool)
    (h : ∀ x ∈ l, p x = true → q x = true)
    (a : α) (hal : a ∈ l) (hqa : q a = true) (hpa : p a = false) :
    l.countP p + 1 ≤ l.countP q := by
  induction l with
  | nil => cases hal
  | cons b l ih =>
    have hl : ∀ x ∈ l, p x = true → q x = true := fun x hx => h x (by simp [hx])
    rcases List.mem_cons.mp hal with hba | hal'
    · subst hba
      rw [List.countP_cons_of_neg _ _ (by simp [hpa]),
          List.countP_cons_of_pos _ _ hqa]
      have := countP_le_countP l p q hl
      omega
    · have hrec := ih hl hal'
      by_cases hpb : p b = true
      · rw [List.countP_cons_of_pos _ _ hpb,
            List.countP_cons_of_pos _ _ (h b (by simp) hpb)]
        omega
      · rw [List.countP_cons_of_neg _ _ hpb]
        cases hqb : q b with
        | true => rw [List.countP_cons_of_pos _ _ hqb]; omega
        | false => rw [List.countP_cons_of_neg _ _ (by simp [hqb])]; exact hrec

end CountLemmas

/-- `vclockCountGE` as a count of peers. -/
theorem vclockCountGE_eq_countP (vc : Nat → Int) (x : Int) :
    vclockCountGE vc x =
      (List.range VCLOCK_MAX).countP (fun i => decide (x ≤ vc i)) := by
  unfold vclockCountGE
  simpa using foldl_count (fun i => x ≤ vc i) (List.range VCLOCK_MAX) 0

/-- Raising peer positions pointwise cannot lower an ack count. -/
theorem vclockCountGE_mono (vc vc' : Nat → Int) (x : Int)
    (h : ∀ i, vc i ≤ vc' i) : vclockCountGE vc x ≤ vclockCountGE vc' x := by
  rw [vclockCountGE_eq_countP, vclockCountGE_eq_countP]
  refine countP_le_countP _ _ _ ?_
  intro i _ hp
  have hp' : x ≤ vc i := of_decide_eq_true hp
  exact decide_eq_true (le_trans hp' (h i))

/-- Following peer `r` to `lsn` raises pointwise (given monotonicity). -/
theorem vclockFollow_pointwise (vc : Nat → Int) (r : Nat) (lsn : Int)
    (hmono : vc r ≤ lsn) : ∀ i, vc i ≤ vclockFollow vc r lsn i := by
  intro i
  unfold vclockFollow
  by_cases h : i = r
  · subst h; simp [hmono]
  · simp [h]

/-- Following peer `r` across a threshold `x` strictly increases the count
of peers at or above `x`. -/
theorem vclockCountGE_follow_succ (vc : Nat → Int) (r : Nat) (lsn x : Int)
    (hr : r < VCLOCK_MAX) (hlt : vc r < x) (hle : x ≤ lsn) :
    vclockCountGE vc x + 1 ≤ vclockCountGE (vclockFollow vc r lsn) x := by
  rw [vclockCountGE_eq_countP, vclockCountGE_eq_countP]
  refine countP_succ_le_countP _ _ _ ?_ r (List.mem_range.mpr hr) ?_ ?_
  · intro i _ hp
    have hp' : x ≤ vc i := of_decide_eq_true hp
    exact decide_eq_true
      (le_trans hp' (vclockFollow_pointwise vc r lsn (le_of_lt (lt_of_lt_of_le hlt hle)) i))
  · exact decide_eq_true (by simpa [vclockFollow] using hle)
  · exact decide_eq_false (by simpa [vclockFollow] using not_le.mpr hlt)

/-- `EntryInv` transports along a pointwise increase of peer positions. -/
theorem EntryInv.mono {vc vc' : Nat → Int} (h : ∀ i, vc i ≤ vc' i)
    {e : TxnLimboEntry} (he : EntryInv vc e) : EntryInv vc' e :=
  ⟨le_trans he.1 (vclockCountGE_mono vc vc' e.lsn h), he.2.1, he.2.2⟩

/-- Core correctness of the `txn_limbo_ack` queue walk: starting from a
limbo satisfying the invariant, every entry of the walked queue satisfies
the invariant with respect to the followed vclock, and any `confirm_lsn`
the walk produces is a position acknowledged by at least `quorum` peers in
the followed vclock. -/
theorem ackScan_spec (quorum : Nat) (vc : Nat → Int) (r : Nat) (lsn : Int)
    (hr : r < VCLOCK_MAX) (hmono : vc r ≤ lsn) (hvc : ∀ i, 0 ≤ vc i) :
    ∀ (q : List TxnLimboEntry) (c : Int),
      (∀ e ∈ q, EntryInv vc e) →
      (c ≠ -1 → quorum ≤ vclockCountGE (vclockFollow vc r lsn) c) →
      (∀ e ∈ (ackScan quorum (vc r) lsn q c).1,
          EntryInv (vclockFollow vc r lsn) e) ∧
      ((ackScan quorum (vc r) lsn q c).2 ≠ -1 →
        quorum ≤ vclockCountGE (vclockFollow vc r lsn)
          (ackScan quorum (vc r) lsn q c).2) := by
  have hpw : ∀ i, vc i ≤ vclockFollow vc r lsn i :=
    vclockFollow_pointwise vc r lsn hmono
  intro q
  induction q with
  | nil =>
    intro c hq hc
    exact ⟨fun e he => absurd he (List.not_mem_nil e), hc⟩
  | cons e rest ih =>
    intro c hq hc
    have he : EntryInv vc e := hq e (by simp)
    have hrest : ∀ x ∈ rest, EntryInv vc x := fun x hx => hq x (by simp [hx])
    by_cases hbreak : lsn < e.lsn
    · rw [show ackScan quorum (vc r) lsn (e :: rest) c = (e :: rest, c) by
        simp [ackScan, hbreak]]
      exact ⟨fun x hx => (hq x hx).mono hpw, hc⟩
    · by_cases hasync : e.txn.wait_ack = false
      · rw [show ackScan quorum (vc r) lsn (e :: rest) c =
            ((e :: (ackScan quorum (vc r) lsn rest c).1),
              (ackScan quorum (vc r) lsn rest c).2) by
          simp [ackScan, hbreak, hasync]]
        have hih := ih c hrest hc
        refine ⟨?_, hih.2⟩
        intro x hx
        rcases List.mem_cons.mp hx with hxe | hx'
        · subst hxe; exact he.mono hpw
        · exact hih.1 x hx'
      · have hsync : e.txn.wait_ack = true := by
          cases hwa : e.txn.wait_ack
          · exact absurd hwa hasync
          · rfl
        by_cases hprev : e.lsn ≤ vc r
        · rw [show ackScan quorum (vc r) lsn (e :: rest) c =
              ((e :: (ackScan quorum (vc r) lsn rest c).1),
                (ackScan quorum (vc r) lsn rest c).2) by
            simp [ackScan, hbreak, hasync, hprev]]
          have hih := ih c hrest hc
          refine ⟨?_, hih.2⟩
          intro x hx
          rcases List.mem_cons.mp hx with hxe | hx'
          · subst hxe; exact he.mono hpw
          · exact hih.1 x hx'
        · -- increment branch: vc r < e.lsn ≤ lsn
          have hlt : vc r < e.lsn := lt_of_not_le hprev
          have hle : e.lsn ≤ lsn := le_of_not_lt hbreak
          have hkey : e.ack_count + 1 ≤
              vclockCountGE (vclockFollow vc r lsn) e.lsn :=
            le_trans (Nat.add_le_add_right he.1 1)
              (vclockCountGE_follow_succ vc r lsn e.lsn hr hlt hle)
          have hlsnpos : e.lsn ≠ -1 := by
            intro hcontra
            have := hvc r
            omega
          have hinv' : EntryInv (vclockFollow vc r lsn)
              { e with ack_count := e.ack_count + 1 } := by
            refine ⟨hkey, ?_, ?_⟩
            · intro hl; exact absurd hl hlsnpos
            · intro hwa; rw [hsync] at hwa; cases hwa
          by_cases hquo : e.ack_count + 1 < quorum
          · rw [show ackScan quorum (vc r) lsn (e :: rest) c =
                (({ e with ack_count := e.ack_count + 1 } ::
                    (ackScan quorum (vc r) lsn rest c).1),
                  (ackScan quorum (vc r) lsn rest c).2) by
              simp [ackScan, hbreak, hasync, hprev, hquo]]
            have hih := ih c hrest hc
            refine ⟨?_, hih.2⟩
            intro x hx
            rcases List.mem_cons.mp hx with hxe | hx'
            · subst hxe; exact hinv'
            · exact hih.1 x hx'
          · rw [show ackScan quorum (vc r) lsn (e :: rest) c =
                (({ e with ack_count := e.ack_count + 1 } ::
                    (ackScan quorum (vc r) lsn rest e.lsn).1),
                  (ackScan quorum (vc r) lsn rest e.lsn).2) by
              simp [ackScan, hbreak, hasync, hprev, hquo]]
            have hcnew : (e.lsn : Int) ≠ -1 →
                quorum ≤ vclockCountGE (vclockFollow vc r lsn) e.lsn :=
              fun _ => le_trans (le_of_not_lt hquo) hkey
            have hih := ih e.lsn hrest hcnew
            refine ⟨?_, hih.2⟩
            intro x hx
            rcases List.mem_cons.mp hx with hxe | hx'
            · subst hxe; exact hinv'
            · exact hih.1 x hx'

/-- The confirm walk only removes entries. -/
theorem mem_read_confirm_q {lsn : Int} :
    ∀ {q : List TxnLimboEntry} {e : TxnLimboEntry},
      e ∈ txn_limbo_read_confirm_q lsn q → e ∈ q := by
  intro q
  induction q with
  | nil => intro e he; simpa [txn_limbo_read_confirm_q] using he
  | cons a rest ih =>
    intro e he
    by_cases hstop : a.txn.wait_ack ∧ (lsn < a.lsn ∨ a.lsn = -1)
    · rw [show txn_limbo_read_confirm_q lsn (a :: rest) = a :: rest by
        simp [txn_limbo_read_confirm_q, hstop]] at he
      exact he
    · rw [show txn_limbo_read_confirm_q lsn (a :: rest) =
          txn_limbo_read_confirm_q lsn rest by
        simp [txn_limbo_read_confirm_q, hstop]] at he
      exact List.mem_cons_of_mem a (ih he)

/-- The rollback walk only removes entries. -/
theorem mem_rollbackRevAux {lsn : Int} :
    ∀ {r R : List TxnLimboEntry}, rollbackRevAux lsn r = some R →
      ∀ {e : TxnLimboEntry}, e ∈ R → e ∈ r := by
  intro r
  induction r with
  | nil => intro R hR; simp [rollbackRevAux] at hR
  | cons a rest ih =>
    intro R hR e heR
    by_cases hbrk : a.txn.wait_ack ∧ a.lsn < lsn
    · simp [rollbackRevAux, hbrk] at hR
    · by_cases hsync : a.txn.wait_ack = true
      · have hge : ¬ a.lsn < lsn := fun hlt => hbrk ⟨hsync, hlt⟩
        rw [show rollbackRevAux lsn (a :: rest) =
            some ((rollbackRevAux lsn rest).getD rest) by
          simp [rollbackRevAux, hsync, hge]] at hR
        cases hO : rollbackRevAux lsn rest with
        | none =>
          rw [hO] at hR
          simp only [Option.getD_none, Option.some_inj] at hR
          subst hR
          exact List.mem_cons_of_mem a heR
        | some R' =>
          rw [hO] at hR
          simp only [Option.getD_some, Option.some_inj] at hR
          subst hR
          exact List.mem_cons_of_mem a (ih hO heR)
      · rw [show rollbackRevAux lsn (a :: rest) = rollbackRevAux lsn rest by
          simp [rollbackRevAux, hbrk, hsync]] at hR
        exact List.mem_cons_of_mem a (ih hR heR)

/-- Entries of a modified queue: untouched, or the image of the entry at
the modified index. -/
theorem mem_listModify {f : α → α} :
    ∀ {i : Nat} {q : List α} {e : α}, e ∈ listModify f i q →
      e ∈ q ∨ ∃ h : i < q.length, e = f (q.get ⟨i, h⟩) := by
  intro i
  induction i with
  | zero =>
    intro q e he
    cases q with
    | nil => simp [listModify] at he
    | cons a rest =>
      rw [show listModify f 0 (a :: rest) = f a :: rest from rfl] at he
      rcases List.mem_cons.mp he with hfa | hrest
      · exact Or.inr ⟨by simp, by simpa using hfa⟩
      · exact Or.inl (List.mem_cons_of_mem a hrest)
  | succ n ih =>
    intro q e he
    cases q with
    | nil => simp [listModify] at he
    | cons a rest =>
      rw [show listModify f (n + 1) (a :: rest) = a :: listModify f n rest
        from rfl] at he
      rcases List.mem_cons.mp he with hea | hrest
      · exact Or.inl (by simp [hea])
      · rcases ih hrest with h | ⟨hn, heq⟩
        · exact Or.inl (List.mem_cons_of_mem a h)
        · exact Or.inr ⟨by simpa using Nat.succ_lt_succ hn, by simpa using heq⟩

/-- `listModify` preserves the length. -/
theorem length_listModify {f : α → α} :
    ∀ (i : Nat) (q : List α), (listModify f i q).length = q.length := by
  intro i
  induction i with
  | zero =>
    intro q; cases q with
    | nil => rfl
    | cons a rest => rfl
  | succ n ih =>
    intro q; cases q with
    | nil => rfl
    | cons a rest => simpa [listModify] using ih rest

/-- `listModify` rewrites the targeted index. -/
theorem get_listModify {f : α → α} :
    ∀ (i : Nat) (q : List α) (h : i < q.length),
      (listModify f i q).get ⟨i, by rw [length_listModify]; exact h⟩ =
        f (q.get ⟨i, h⟩) := by
  intro i
  induction i with
  | zero =>
    intro q h
    cases q with
    | nil => cases h
    | cons a rest => rfl
  | succ n ih =>
    intro q h
    cases q with
    | nil => cases h
    | cons a rest => simpa [listModify] using ih rest (Nat.lt_of_succ_lt_succ h)

/-- `txn_limbo_read_confirm` preserves the limbo invariant. -/
theorem LimboInv_read_confirm {L : TxnLimbo} (h : LimboInv L) (lsn : Int) :
    LimboInv (txn_limbo_read_confirm L lsn) :=
  ⟨h.1, fun e he => h.2 e (mem_read_confirm_q he)⟩

/-- `txn_limbo_read_rollback` preserves the limbo invariant. -/
theorem LimboInv_read_rollback {L : TxnLimbo} (h : LimboInv L) (lsn : Int) :
    LimboInv (txn_limbo_read_rollback L lsn) := by
  unfold txn_limbo_read_rollback
  cases hO : rollbackRevAux lsn L.queue.reverse with
  | none => exact h
  | some r =>
    refine ⟨h.1, fun e he => h.2 e ?_⟩
    have : e ∈ r := by simpa using he
    exact List.mem_reverse.mp (mem_rollbackRevAux hO this)

/-- A fresh entry satisfies the entry invariant. -/
theorem EntryInv_fresh (vc : Nat → Int) (txn : Txn) :
    EntryInv vc { txn := txn, lsn := -1, ack_count := 0,
                  is_commit := false, is_rollback := false } :=
  ⟨Nat.zero_le _, fun _ => rfl, fun _ => rfl⟩

/-- `txn_limbo_append` preserves the limbo invariant. -/
theorem LimboInv_append {L : TxnLimbo} (h : LimboInv L) (iid id0 : Nat)
    (txn : Txn) (allocOk : Bool) :
    LimboInv (txn_limbo_append iid L id0 txn allocOk).1 := by
  have halloc : ∀ M : TxnLimbo, M.vclock = L.vclock → M.queue = L.queue →
      LimboInv (appendAlloc M txn allocOk).1 := by
    intro M hvc hq
    unfold appendAlloc
    by_cases hA : allocOk = true
    · simp only [hA, if_true]
      refine ⟨by rw [hvc]; exact h.1, ?_⟩
      intro e he
      simp only [hq, hvc] at *
      rcases List.mem_append.mp he with hold | hnew
      · exact h.2 e hold
      · rw [List.mem_singleton.mp hnew]
        exact EntryInv_fresh L.vclock txn
    · simp only [hA, if_false, Bool.false_eq_true]
      refine ⟨by rw [hvc]; exact h.1, ?_⟩
      intro e he
      rw [hq] at he
      rw [hvc]
      exact h.2 e he
  unfold txn_limbo_append
  by_cases h1 : L.instance_id ≠ (if id0 = 0 then iid else id0)
  · rw [if_pos h1]
    by_cases h2 : L.instance_id = REPLICA_ID_NIL ∨ L.queue = []
    · rw [if_pos h2]
      exact halloc _ rfl rfl
    · rw [if_neg h2]
      exact h
  · rw [if_neg h1]
    exact halloc _ rfl rfl

/-- `txn_limbo_assign_lsn` preserves the limbo invariant, given the
assertions of `txn_limbo_assign_local_lsn`/`txn_limbo_assign_remote_lsn`:
the entry has no position yet and carries `TXN_WAIT_ACK`. -/
theorem LimboInv_assign {L : TxnLimbo} (h : LimboInv L) (iid : Nat) (i : Nat)
    (lsn : Int) (hi : i < L.queue.length)
    (hunassigned : (L.queue.get ⟨i, hi⟩).lsn = -1)
    (hack : (L.queue.get ⟨i, hi⟩).txn.wait_ack = true) (hpos : 0 < lsn) :
    LimboInv (txn_limbo_assign_lsn iid L i lsn) := by
  unfold txn_limbo_assign_lsn txn_limbo_assign_local_lsn
    txn_limbo_assign_remote_lsn
  have hlocalf : ∀ e : TxnLimboEntry, e = L.queue.get ⟨i, hi⟩ →
      EntryInv L.vclock
        { e with lsn := lsn, ack_count := vclockCountGE L.vclock lsn } := by
    intro e he
    refine ⟨le_refl _, fun hl => absurd (show lsn = -1 from hl) (by omega),
      fun hwa => ?_⟩
    rw [he] at hwa
    rw [hack] at hwa
    cases hwa
  have hremotef : ∀ e : TxnLimboEntry, e = L.queue.get ⟨i, hi⟩ →
      EntryInv L.vclock { e with lsn := lsn } := by
    intro e he
    have hinv := h.2 (L.queue.get ⟨i, hi⟩) (L.queue.get_mem i hi)
    refine ⟨?_, fun hl => absurd (show lsn = -1 from hl) (by omega),
      fun hwa => ?_⟩
    · have hz : e.ack_count = 0 := by
        rw [he]
        exact hinv.2.1 hunassigned
      simp only [hz]
      exact Nat.zero_le _
    · rw [he, hack] at hwa
      cases hwa
  by_cases hown : L.instance_id = iid
  · simp only [hown, if_true]
    refine ⟨h.1, ?_⟩
    intro e he
    rcases mem_listModify he with hold | ⟨hlt, heq⟩
    · exact h.2 e hold
    · rw [heq]
      exact hlocalf _ rfl
  · simp only [hown, if_false]
    refine ⟨h.1, ?_⟩
    intro e he
    rcases mem_listModify he with hold | ⟨hlt, heq⟩
    · exact h.2 e hold
    · rw [heq]
      exact hremotef _ rfl

/-- `txn_limbo_ack` preserves the limbo invariant, given the `vclock_follow`
preconditions. -/
theorem LimboInv_ack {L : TxnLimbo} (h : LimboInv L) (quorum r : Nat)
    (lsn : Int) (writeOk : Bool) (hr : r < VCLOCK_MAX)
    (hmono : L.vclock r ≤ lsn) :
    LimboInv (txn_limbo_ack quorum L r lsn writeOk) := by
  unfold txn_limbo_ack
  by_cases hq : L.queue = []
  · simp only [hq, if_true]
    exact h
  · simp only [hq, if_false]
    have hscan := ackScan_spec quorum L.vclock r lsn hr hmono h.1 L.queue (-1)
      h.2 (fun hcon => absurd rfl hcon)
    have hvc' : ∀ i, 0 ≤ vclockFollow L.vclock r lsn i := by
      intro i
      unfold vclockFollow
      by_cases hir : i = r
      · simp only [hir, if_true]
        exact le_trans (h.1 r) hmono
      · simp only [hir, if_false]
        exact h.1 i
    by_cases hconf : (txn_limbo_ack_scan quorum L r lsn).2 = -1
    · simp only [hconf, if_true]
      exact ⟨hvc', hscan.1⟩
    · simp only [hconf, if_false]
      by_cases hw : writeOk = true
      · simp only [hw, if_true]
        exact ⟨hvc', fun e he => hscan.1 e (mem_read_confirm_q he)⟩
      · simp only [hw, if_false, Bool.false_eq_true]
        exact ⟨hvc', hscan.1⟩

/-- `txn_limbo_on_parameters_change` preserves the limbo invariant. -/
theorem LimboInv_params_change {L : TxnLimbo} (h : LimboInv L) (quorum : Nat) :
    LimboInv (txn_limbo_on_parameters_change quorum L) := by
  unfold txn_limbo_on_parameters_change
  by_cases hq : L.queue = []
  · simp only [hq, if_true]; exact h
  · simp only [hq, if_false]
    by_cases hc : 0 < paramsScan quorum L.queue (-1)
    · simp only [hc, if_true]
      exact ⟨h.1, fun e he => h.2 e (mem_read_confirm_q he)⟩
    · simp only [hc, if_false]; exact h

/-- `txn_limbo_force_empty` preserves the limbo invariant. -/
theorem LimboInv_force_empty {L : TxnLimbo} (h : LimboInv L)
    (confirm_lsn : Int) : LimboInv (txn_limbo_force_empty L confirm_lsn) := by
  have h1 : LimboInv (match (forceEmptyScan confirm_lsn L.queue).1 with
      | some c => txn_limbo_read_confirm L c
      | none => L) := by
    cases (forceEmptyScan confirm_lsn L.queue).1 with
    | none => exact h
    | some c => exact LimboInv_read_confirm h c
  show LimboInv (match (forceEmptyScan confirm_lsn L.queue).2 with
    | some c => txn_limbo_read_rollback
        (match (forceEmptyScan confirm_lsn L.queue).1 with
          | some c => txn_limbo_read_confirm L c
          | none => L) c
    | none => (match (forceEmptyScan confirm_lsn L.queue).1 with
        | some c => txn_limbo_read_confirm L c
        | none => L))
  cases (forceEmptyScan confirm_lsn L.queue).2 with
  | none => exact h1
  | some c => exact LimboInv_read_rollback h1 c

/-- `txn_limbo_timeout_rollback` preserves the limbo invariant. -/
theorem LimboInv_timeout_rollback {L : TxnLimbo} (h : LimboInv L) :
    LimboInv (txn_limbo_timeout_rollback L) :=
  ⟨h.1, fun e he => absurd he (List.not_mem_nil e)⟩

/-- The limbo invariant holds in every reachable state. -/
theorem reachable_LimboInv {iid : Nat} {L : TxnLimbo}
    (h : Reachable iid L) : LimboInv L := by
  induction h with
  | init =>
    exact ⟨fun i => le_refl 0, fun e he => absurd he (List.not_mem_nil e)⟩
  | step _ hstep ih =>
    cases hstep with
    | append id0 txn allocOk hsync => exact LimboInv_append ih iid id0 txn allocOk
    | assign_lsn i lsn hi hunassigned hack hpos hown =>
      exact LimboInv_assign ih iid i lsn hi hunassigned hack hpos
    | ack quorum r lsn writeOk hr hmono =>
      exact LimboInv_ack ih quorum r lsn writeOk hr hmono
    | read_confirm lsn hown => exact LimboInv_read_confirm ih lsn
    | read_rollback lsn hown => exact LimboInv_read_rollback ih lsn
    | params_change quorum => exact LimboInv_params_change ih quorum
    | force_empty confirm_lsn hown => exact LimboInv_force_empty ih confirm_lsn
    | timeout_rollback hne => exact LimboInv_timeout_rollback ih

/-- `appendAlloc` never changes the owner. -/
theorem appendAlloc_instance_id (M : TxnLimbo) (txn : Txn) (allocOk : Bool) :
    (appendAlloc M txn allocOk).1.instance_id = M.instance_id := by
  unfold appendAlloc
  split <;> rfl

/-- `txn_limbo_assign_lsn` never changes the owner. -/
theorem assign_lsn_instance_id (iid : Nat) (L : TxnLimbo) (i : Nat) (lsn : Int) :
    (txn_limbo_assign_lsn iid L i lsn).instance_id = L.instance_id := by
  unfold txn_limbo_assign_lsn txn_limbo_assign_local_lsn
    txn_limbo_assign_remote_lsn
  split <;> rfl

/-- `txn_limbo_ack` is the identity on an empty queue (line 398). -/
theorem ack_of_empty (quorum : Nat) (L : TxnLimbo) (r : Nat) (lsn : Int)
    (writeOk : Bool) (h : L.queue = []) :
    txn_limbo_ack quorum L r lsn writeOk = L := by
  unfold txn_limbo_ack
  rw [if_pos h]

/-- `txn_limbo_ack` never changes the owner. -/
theorem ack_instance_id (quorum : Nat) (L : TxnLimbo) (r : Nat) (lsn : Int)
    (writeOk : Bool) :
    (txn_limbo_ack quorum L r lsn writeOk).instance_id = L.instance_id := by
  unfold txn_limbo_ack
  by_cases hq : L.queue = []
  · simp [hq]
  · by_cases hc : (txn_limbo_ack_scan quorum L r lsn).2 = -1
    · simp [hq, hc]
    · by_cases hw : writeOk = true
      · simp [hq, hc, hw]
      · simp [hq, hc, hw]

/-- `txn_limbo_read_confirm` never changes the owner. -/
theorem read_confirm_instance_id (L : TxnLimbo) (lsn : Int) :
    (txn_limbo_read_confirm L lsn).instance_id = L.instance_id := rfl

/-- `txn_limbo_read_rollback` never changes the owner. -/
theorem read_rollback_instance_id (L : TxnLimbo) (lsn : Int) :
    (txn_limbo_read_rollback L lsn).instance_id = L.instance_id := by
  unfold txn_limbo_read_rollback
  split <;> rfl

/-- `txn_limbo_read_rollback` is the identity on an empty queue. -/
theorem read_rollback_of_empty (L : TxnLimbo) (lsn : Int) (h : L.queue = []) :
    txn_limbo_read_rollback L lsn = L := by
  unfold txn_limbo_read_rollback
  rw [h]
  rfl

/-- `txn_limbo_on_parameters_change` is the identity on an empty queue. -/
theorem params_change_of_empty (quorum : Nat) (L : TxnLimbo)
    (h : L.queue = []) : txn_limbo_on_parameters_change quorum L = L := by
  unfold txn_limbo_on_parameters_change
  rw [if_pos h]

/-- `txn_limbo_on_parameters_change` never changes the owner. -/
theorem params_change_instance_id (quorum : Nat) (L : TxnLimbo) :
    (txn_limbo_on_parameters_change quorum L).instance_id = L.instance_id := by
  unfold txn_limbo_on_parameters_change
  by_cases hq : L.queue = []
  · simp [hq]
  · by_cases hc : 0 < paramsScan quorum L.queue (-1)
    · simp [hq, hc]
    · simp [hq, hc]

/-- `txn_limbo_force_empty` never changes the owner. -/
theorem force_empty_instance_id (L : TxnLimbo) (confirm_lsn : Int) :
    (txn_limbo_force_empty L confirm_lsn).instance_id = L.instance_id := by
  unfold txn_limbo_force_empty
  have h1 : ∀ M : TxnLimbo, M.instance_id = L.instance_id →
      ∀ O : Option Int, (match O with
        | some c => txn_limbo_read_rollback M c
        | none => M).instance_id = L.instance_id := by
    intro M hM O
    cases O with
    | none => exact hM
    | some c => rw [read_rollback_instance_id]; exact hM
  refine h1 _ ?_ _
  cases (forceEmptyScan confirm_lsn L.queue).1 with
  | none => rfl
  | some c => rfl

/-- `txn_limbo_force_empty` is the identity on an empty queue. -/
theorem force_empty_of_empty (L : TxnLimbo) (confirm_lsn : Int)
    (h : L.queue = []) : txn_limbo_force_empty L confirm_lsn = L := by
  unfold txn_limbo_force_empty
  rw [h]
  rfl

/-- A step preserves "the owner is set whenever the queue is non-empty",
and never clears a set owner, as long as the local instance id is valid. -/
theorem step_origin {iid : Nat} (hiid : iid ≠ REPLICA_ID_NIL)
    {L L' : TxnLimbo} (hstep : LimboStep iid L L')
    (hO : L.queue ≠ [] → L.instance_id ≠ REPLICA_ID_NIL) :
    (L'.queue ≠ [] → L'.instance_id ≠ REPLICA_ID_NIL) ∧
    (L.instance_id ≠ REPLICA_ID_NIL → L'.instance_id ≠ REPLICA_ID_NIL) := by
  cases hstep with
  | append id0 txn allocOk hsync =>
    have hid : (if id0 = 0 then iid else id0) ≠ REPLICA_ID_NIL := by
      by_cases h0 : id0 = 0
      · simpa [h0] using hiid
      · simpa [h0, REPLICA_ID_NIL] using h0
    unfold txn_limbo_append
    by_cases h1 : L.instance_id ≠ (if id0 = 0 then iid else id0)
    · rw [if_pos h1]
      by_cases h2 : L.instance_id = REPLICA_ID_NIL ∨ L.queue = []
      · rw [if_pos h2]
        rw [appendAlloc_instance_id]
        exact ⟨fun _ => hid, fun _ => hid⟩
      · rw [if_neg h2]
        exact ⟨hO, fun h => h⟩
    · rw [if_neg h1]
      rw [appendAlloc_instance_id]
      rw [not_not] at h1
      rw [h1]
      exact ⟨fun _ => hid, fun _ => hid⟩
  | assign_lsn i lsn hi hunassigned hack hpos hown =>
    rw [assign_lsn_instance_id]
    exact ⟨fun _ => hown, fun h => h⟩
  | ack quorum r lsn writeOk hr hmono =>
    rw [ack_instance_id]
    refine ⟨fun hne => ?_, fun h => h⟩
    by_cases hq : L.queue = []
    · rw [ack_of_empty quorum L r lsn writeOk hq] at hne
      exact hO hne
    · exact hO hq
  | read_confirm lsn hown =>
    rw [read_confirm_instance_id]
    exact ⟨fun _ => hown, fun h => h⟩
  | read_rollback lsn hown =>
    rw [read_rollback_instance_id]
    exact ⟨fun _ => hown, fun h => h⟩
  | params_change quorum =>
    rw [params_change_instance_id]
    refine ⟨fun hne => ?_, fun h => h⟩
    by_cases hq : L.queue = []
    · rw [params_change_of_empty quorum L hq] at hne
      exact hO hne
    · exact hO hq
  | force_empty confirm_lsn hown =>
    rw [force_empty_instance_id]
    exact ⟨fun _ => hown, fun h => h⟩
  | timeout_rollback hne =>
    exact ⟨fun h => absurd rfl h, fun h => h⟩

/-- In every reachable state the owner is set whenever the queue is
non-empty. -/
theorem reachable_origin {iid : Nat} (hiid : iid ≠ REPLICA_ID_NIL)
    {L : TxnLimbo} (h : Reachable iid L) :
    L.queue ≠ [] → L.instance_id ≠ REPLICA_ID_NIL := by
  induction h with
  | init => intro hne; exact absurd rfl hne
  | step _ hstep ih => exact (step_origin hiid hstep ih).1

theorem wState1_reachable : Reachable 1 wState1 :=
  Reachable.step Reachable.init
    (LimboStep.append txn_limbo_create 0 syncTxn true rfl)

theorem wState2_reachable : Reachable 1 wState2 :=
  Reachable.step wState1_reachable
    (LimboStep.assign_lsn wState1 0 5 (by decide) (by decide) (by decide)
      (by decide) (by decide))

theorem wDrained_reachable : Reachable 1 wDrained :=
  Reachable.step wState2_reachable
    (LimboStep.read_confirm wState2 5 (by decide))

theorem wAsyncState_reachable : Reachable 1 wAsyncState :=
  Reachable.step Reachable.init
    (LimboStep.append txn_limbo_create 0 asyncTxn true rfl)

/-- C1: for every reachable limbo state and every `ack(peer, pos)` call,
whenever the decision scan of `txn_limbo_ack` produces a confirm position
`p` (so that `txn_limbo_write_confirm` is invoked with `confirm_lsn = p`),
at that moment at least `replication_synchro_quorum` peers have an
acknowledged position `≥ p` in the peer position vector (the vclock as
updated by this very ack). -/
theorem C1_ack_confirm_has_quorum (iid : Nat) (L : TxnLimbo)
    (hreach : Reachable iid L) (quorum : Nat) (r : Nat) (lsn : Int)
    (hr : r < VCLOCK_MAX) (hmono : L.vclock r ≤ lsn) (p : Int)
    (hp : (txn_limbo_ack_scan quorum L r lsn).2 = p) (hne : p ≠ -1) :
    quorum ≤ vclockCountGE (vclockFollow L.vclock r lsn) p := by
  have hinv := reachable_LimboInv hreach
  have hmain := (ackScan_spec quorum L.vclock r lsn hr hmono hinv.1 L.queue
    (-1) hinv.2 (fun hc => absurd rfl hc)).2
  unfold txn_limbo_ack_scan at hp
  subst hp
  exact hmain hne

/-- C1 witness: on the reachable state with one local sync transaction at
position 5 and no acks yet, `ack(2, 5)` with quorum 1 issues CONFIRM at 5,
and one peer (peer 2) indeed has position `≥ 5`. -/
theorem C1_ack_confirm_has_quorum_witness :
    (2 < VCLOCK_MAX ∧ wState2.vclock 2 ≤ 5 ∧
      (txn_limbo_ack_scan 1 wState2 2 5).2 = 5 ∧ (5 : Int) ≠ -1) ∧
    1 ≤ vclockCountGE (vclockFollow wState2.vclock 2 5) 5 :=
  ⟨⟨by decide, by decide, by decide, by decide⟩,
    C1_ack_confirm_has_quorum 1 wState2 wState2_reachable 1 2 5 (by decide)
      (by decide) 5 (by decide) (by decide)⟩

/-- C2 counterexample: the claim "origin is nil iff the queue is empty, and
the origin is cleared once the queue drains" fails on the code: after
appending a local sync transaction, assigning it position 5 and applying
CONFIRM at 5, the reachable state `wDrained` has an empty queue but its
origin is still instance 1 — `txn_limbo_read_confirm` (and every other
operation) never resets `limbo->instance_id` to `REPLICA_ID_NIL`. -/
theorem C2_counterexample :
    Reachable 1 wDrained ∧ wDrained.queue = [] ∧
      wDrained.instance_id ≠ REPLICA_ID_NIL :=
  ⟨wDrained_reachable, by decide, by decide⟩

/-- C2 (amended): in every reachable state of an instance with a valid id,
the origin is set whenever the queue is non-empty (equivalently: a nil
origin implies an empty queue), and no operation ever clears a set origin —
in particular the origin persists after the queue drains. -/
theorem C2_origin_nonempty_imp_set (iid : Nat) (hiid : iid ≠ REPLICA_ID_NIL)
    (L : TxnLimbo) (hreach : Reachable iid L) :
    (L.queue ≠ [] → L.instance_id ≠ REPLICA_ID_NIL) ∧
    (∀ L', LimboStep iid L L' → L.instance_id ≠ REPLICA_ID_NIL →
      L'.instance_id ≠ REPLICA_ID_NIL) :=
  ⟨reachable_origin hiid hreach,
    fun _ hstep => (step_origin hiid hstep (reachable_origin hiid hreach)).2⟩

/-- C2 amended-claim witness: on the reachable one-entry state the queue is
non-empty and the origin is set; the persistence part applied to the
CONFIRM step that drains the queue. -/
theorem C2_origin_nonempty_imp_set_witness :
    ((1 : Nat) ≠ REPLICA_ID_NIL ∧ wState2.queue ≠ []) ∧
    wState2.instance_id ≠ REPLICA_ID_NIL ∧
    wDrained.instance_id ≠ REPLICA_ID_NIL :=
  ⟨⟨by decide, by decide⟩,
    (C2_origin_nonempty_imp_set 1 (by decide) wState2 wState2_reachable).1
      (by decide),
    (C2_origin_nonempty_imp_set 1 (by decide) wState2 wState2_reachable).2
      wDrained (LimboStep.read_confirm wState2 5 (by decide)) (by decide)⟩

/-- C10: in every reachable state, a queued entry whose transaction lacks
`TXN_WAIT_ACK` (an async entry) has `lsn = -1`: positions are assigned only
to `wait_ack` entries, so the asserts `assert(e->lsn == -1)` in the
`txn_limbo_ack` and `txn_limbo_on_parameters_change` scans never fail. -/
theorem C10_async_entry_lsn_unassigned (iid : Nat) (L : TxnLimbo)
    (hreach : Reachable iid L) (e : TxnLimboEntry) (he : e ∈ L.queue)
    (hasync : e.txn.wait_ack = false) : e.lsn = -1 :=
  ((reachable_LimboInv hreach).2 e he).2.2 hasync

/-- C10 witness: the queued async entry of the reachable state
`wAsyncState` has `lsn = -1`. -/
theorem C10_async_entry_lsn_unassigned_witness :
    ({ txn := asyncTxn, lsn := -1, ack_count := 0, is_commit := false,
       is_rollback := false } : TxnLimboEntry) ∈ wAsyncState.queue ∧
    ({ txn := asyncTxn, lsn := -1, ack_count := 0, is_commit := false,
       is_rollback := false } : TxnLimboEntry).lsn = -1 :=
  ⟨by decide,
    C10_async_entry_lsn_unassigned 1 wAsyncState wAsyncState_reachable _
      (by decide) (by decide)⟩

theorem appendAlloc_eq (M : TxnLimbo) (txn : Txn) (allocOk : Bool) :
    appendAlloc M txn allocOk =
      if allocOk then ({ M with queue := M.queue ++ [freshEntry txn] }, none)
      else (M, some LimboError.outOfMemory) := by
  cases allocOk <;> rfl

/-- C4: `append(peer_id, txn)` fails with `ForeignSync` citing the current
origin exactly when the origin is set, differs from the effective peer id
(`peer_id = 0` replaced by the local id) and the queue is non-empty; on any
error (`ForeignSync` or `OutOfMemory`) the queue is unchanged and nothing
is queued; on success a fresh entry with `lsn = -1`, `ack_count = 0` and
both terminal flags false is pushed at the tail, and the effective peer id
is the origin. -/
theorem C4_append_spec (iid : Nat) (L : TxnLimbo) (id0 : Nat) (txn : Txn)
    (allocOk : Bool) (hsync : txn.wait_sync = true) :
    ((txn_limbo_append iid L id0 txn allocOk).2 =
        some (LimboError.foreignSync L.instance_id) ↔
      L.instance_id ≠ REPLICA_ID_NIL ∧
        L.instance_id ≠ (if id0 = 0 then iid else id0) ∧ L.queue ≠ []) ∧
    (∀ err, (txn_limbo_append iid L id0 txn allocOk).2 = some err →
      (txn_limbo_append iid L id0 txn allocOk).1.queue = L.queue) ∧
    ((txn_limbo_append iid L id0 txn allocOk).2 = none →
      (txn_limbo_append iid L id0 txn allocOk).1.queue =
        L.queue ++ [freshEntry txn] ∧
      (txn_limbo_append iid L id0 txn allocOk).1.instance_id =
        (if id0 = 0 then iid else id0)) := by
  unfold txn_limbo_append
  by_cases h1 : L.instance_id ≠ (if id0 = 0 then iid else id0)
  · by_cases h2 : L.instance_id = REPLICA_ID_NIL ∨ L.queue = []
    · rw [if_pos h1, if_pos h2, appendAlloc_eq]
      cases allocOk with
      | false =>
        simp only [Bool.false_eq_true, if_false]
        refine ⟨?_, ?_, ?_⟩
        · constructor
          · intro hx
            exact LimboError.noConfusion (Option.some.inj hx)
          · rintro ⟨ha, hb, hc⟩
            rcases h2 with h2a | h2b
            · exact absurd h2a ha
            · exact absurd h2b hc
        · intro err _; trivial
        · intro hx; exact Option.noConfusion hx
      | true =>
        simp only [if_true]
        refine ⟨?_, ?_, ?_⟩
        · constructor
          · intro hx; exact Option.noConfusion hx
          · rintro ⟨ha, hb, hc⟩
            rcases h2 with h2a | h2b
            · exact absurd h2a ha
            · exact absurd h2b hc
        · intro err hx; exact Option.noConfusion hx
        · intro _; exact ⟨by trivial, by trivial⟩
    · rw [if_pos h1, if_neg h2]
      push_neg at h2
      refine ⟨?_, ?_, ?_⟩
      · exact ⟨fun _ => ⟨h2.1, h1, h2.2⟩, fun _ => rfl⟩
      · intro err _; rfl
      · intro hx; exact Option.noConfusion hx
  · rw [if_neg h1, appendAlloc_eq]
    rw [not_not] at h1
    cases allocOk with
    | false =>
      simp only [Bool.false_eq_true, if_false]
      refine ⟨?_, ?_, ?_⟩
      · constructor
        · intro hx
          exact LimboError.noConfusion (Option.some.inj hx)
        · rintro ⟨ha, hb, hc⟩
          exact absurd h1 hb
      · intro err _; trivial
      · intro hx; exact Option.noConfusion hx
    | true =>
      simp only [if_true]
      refine ⟨?_, ?_, ?_⟩
      · constructor
        · intro hx; exact Option.noConfusion hx
        · rintro ⟨ha, hb, hc⟩
          exact absurd h1 hb
      · intro err hx; exact Option.noConfusion hx
      · intro _; exact ⟨by trivial, h1⟩

/-- C4 witness: with the queue owned by instance 1 and non-empty, an append
for peer 2 is refused with `ForeignSync` citing origin 1. -/
theorem C4_append_spec_witness :
    (txn_limbo_append 1 wState1 2 syncTxn true).2 =
      some (LimboError.foreignSync wState1.instance_id) :=
  (C4_append_spec 1 wState1 2 syncTxn true (by decide)).1.mpr
    ⟨by decide, by decide, by decide⟩

/-- `getD` after `listModify` at the modified index. -/
theorem getD_listModify {α : Type} [Inhabited α] {f : α → α} (i : Nat)
    (q : List α) (h : i < q.length) (d : α) :
    (listModify f i q).getD i d = f (q.get ⟨i, h⟩) := by
  have hlen : i < (listModify f i q).length := by
    rw [length_listModify]; exact h
  rw [List.getD_eq_get _ _ hlen]
  exact get_listModify i q h

/-- C5: with a local origin, `assign_lsn(entry, pos)` on an unassigned sync
entry records `pos` and sets `ack_count` to exactly the number of peers
whose recorded position is `≥ pos`, back-applying earlier acks. -/
theorem C5_assign_local_recounts (iid : Nat) (L : TxnLimbo) (i : Nat)
    (pos : Int) (hlocal : L.instance_id = iid) (hi : i < L.queue.length)
    (hunassigned : (L.queue.get ⟨i, hi⟩).lsn = -1)
    (hack : (L.queue.get ⟨i, hi⟩).txn.wait_ack = true) (hpos : 0 < pos) :
    ((txn_limbo_assign_lsn iid L i pos).queue.getD i default).lsn = pos ∧
    ((txn_limbo_assign_lsn iid L i pos).queue.getD i default).ack_count =
      ((List.range VCLOCK_MAX).filter (fun j => pos ≤ L.vclock j)).length := by
  unfold txn_limbo_assign_lsn
  rw [if_pos hlocal]
  unfold txn_limbo_assign_local_lsn
  show ((listModify (assignLocalUpdate L.vclock pos) i L.queue).getD i
      default).lsn = pos ∧
    ((listModify (assignLocalUpdate L.vclock pos) i L.queue).getD i
      default).ack_count =
      ((List.range VCLOCK_MAX).filter (fun j => pos ≤ L.vclock j)).length
  rw [getD_listModify i L.queue hi]
  refine ⟨rfl, ?_⟩
  show vclockCountGE L.vclock pos =
    ((List.range VCLOCK_MAX).filter (fun j => pos ≤ L.vclock j)).length
  rw [vclockCountGE_eq_countP, List.countP_eq_length_filter]

/-- C5 witness: peer 2 already sent position 20; a local sync transaction
gets lsn 15 via `assign_lsn`; afterwards `ack_count = 1` without any new
ack having arrived. -/
theorem C5_assign_local_recounts_witness :
    ((txn_limbo_assign_lsn 1 wC5 0 15).queue.getD 0 default).lsn = 15 ∧
    ((txn_limbo_assign_lsn 1 wC5 0 15).queue.getD 0 default).ack_count = 1 := by
  have h := C5_assign_local_recounts 1 wC5 0 15 rfl (by decide) (by decide)
    (by decide) (by decide)
  refine ⟨h.1, ?_⟩
  rw [h.2]
  decide

/-- C7: an entry already complete when `txn_limbo_wait_complete` is called
returns immediately: the result does not depend on any sleeping outcome,
and it is success iff the entry is committed, `SyncRollback` iff it is
rolled back. -/
theorem C7_wait_complete_fast_path (e : TxnLimboEntry)
    (hdone : e.is_complete = true) :
    (∀ o o' : WaitOutcome,
      txn_limbo_wait_complete e o = txn_limbo_wait_complete e o') ∧
    (e.is_commit = true → e.is_rollback = false →
      ∀ o, txn_limbo_wait_complete e o = WaitResult.ok) ∧
    (e.is_rollback = true →
      ∀ o, txn_limbo_wait_complete e o = WaitResult.syncRollback) := by
  refine ⟨?_, ?_, ?_⟩
  · intro o o'
    unfold txn_limbo_wait_complete
    rw [if_pos hdone]
    rw [if_pos hdone]
  · intro hc hr o
    unfold txn_limbo_wait_complete
    rw [if_pos hdone, if_neg (by simp [hr])]
  · intro hr o
    unfold txn_limbo_wait_complete
    rw [if_pos hdone, if_pos hr]

/-- C7 witness: a committed entry returns success even under the timed-out
sleeping outcome (it never sleeps). -/
theorem C7_wait_complete_fast_path_witness :
    ({ txn := syncTxn, lsn := 5, ack_count := 2, is_commit := true,
       is_rollback := false } : TxnLimboEntry).is_complete = true ∧
    txn_limbo_wait_complete
      { txn := syncTxn, lsn := 5, ack_count := 2, is_commit := true,
        is_rollback := false } WaitOutcome.timedOut = WaitResult.ok :=
  ⟨by decide,
    (C7_wait_complete_fast_path _ (by decide)).2.1 rfl rfl
      WaitOutcome.timedOut⟩

/-- C9: on an empty limbo `txn_limbo_wait_confirm` returns success
immediately, regardless of any sleeping outcome — it cannot time out. -/
theorem C9_wait_confirm_empty (L : TxnLimbo) (hempty : L.queue = []) :
    ∀ outcome, txn_limbo_wait_confirm L outcome = WaitResult.ok := by
  intro o
  unfold txn_limbo_wait_confirm
  rw [if_pos hempty]

/-- C9 witness: the freshly created (empty) limbo returns success even
under the timed-out outcome. -/
theorem C9_wait_confirm_empty_witness :
    txn_limbo_create.queue = [] ∧
    txn_limbo_wait_confirm txn_limbo_create WaitOutcome.timedOut =
      WaitResult.ok :=
  ⟨rfl, C9_wait_confirm_empty txn_limbo_create rfl WaitOutcome.timedOut⟩

/-- The confirm walk is idempotent on the queue. -/
theorem read_confirm_q_idem (lsn : Int) :
    ∀ q : List TxnLimboEntry,
      txn_limbo_read_confirm_q lsn (txn_limbo_read_confirm_q lsn q) =
        txn_limbo_read_confirm_q lsn q := by
  intro q
  induction q with
  | nil => rfl
  | cons e rest ih =>
    by_cases hstop : e.txn.wait_ack ∧ (lsn < e.lsn ∨ e.lsn = -1)
    · have hstep : txn_limbo_read_confirm_q lsn (e :: rest) = e :: rest := by
        simp [txn_limbo_read_confirm_q, hstop]
      rw [hstep]
      exact hstep
    · have hstep : txn_limbo_read_confirm_q lsn (e :: rest) =
          txn_limbo_read_confirm_q lsn rest := by
        simp [txn_limbo_read_confirm_q, hstop]
      rw [hstep]
      exact ih

/-- A second rollback walk at the same position finds nothing to abort. -/
theorem rollbackRevAux_idem {lsn : Int} :
    ∀ {r R : List TxnLimboEntry}, rollbackRevAux lsn r = some R →
      rollbackRevAux lsn R = none := by
  intro r
  induction r with
  | nil => intro R hR; simp [rollbackRevAux] at hR
  | cons a rest ih =>
    intro R hR
    by_cases hbrk : a.txn.wait_ack ∧ a.lsn < lsn
    · simp [rollbackRevAux, hbrk] at hR
    · by_cases hsync : a.txn.wait_ack = true
      · have hge : ¬ a.lsn < lsn := fun hlt => hbrk ⟨hsync, hlt⟩
        rw [show rollbackRevAux lsn (a :: rest) =
            some ((rollbackRevAux lsn rest).getD rest) by
          simp [rollbackRevAux, hsync, hge]] at hR
        cases hO : rollbackRevAux lsn rest with
        | none =>
          rw [hO] at hR
          simp only [Option.getD_none, Option.some_inj] at hR
          subst hR
          exact hO
        | some R' =>
          rw [hO] at hR
          simp only [Option.getD_some, Option.some_inj] at hR
          subst hR
          exact ih hO
      · rw [show rollbackRevAux lsn (a :: rest) = rollbackRevAux lsn rest by
          simp [rollbackRevAux, hbrk, hsync]] at hR
        exact ih hR

/-- `txn_limbo_read_rollback` is idempotent at the limbo level. -/
theorem read_rollback_idem (L : TxnLimbo) (lsn : Int) :
    txn_limbo_read_rollback (txn_limbo_read_rollback L lsn) lsn =
      txn_limbo_read_rollback L lsn := by
  cases h1 : rollbackRevAux lsn L.queue.reverse with
  | none =>
    have hL : txn_limbo_read_rollback L lsn = L := by
      unfold txn_limbo_read_rollback
      rw [h1]
    rw [hL]
    exact hL
  | some R =>
    have hL : txn_limbo_read_rollback L lsn =
        { L with queue := R.reverse,
                 rollback_count :=
                   L.rollback_count + (L.queue.length - R.length) } := by
      unfold txn_limbo_read_rollback
      rw [h1]
    rw [hL]
    have hnoop : ∀ M : TxnLimbo,
        rollbackRevAux lsn M.queue.reverse = none →
          txn_limbo_read_rollback M lsn = M := by
      intro M hM
      unfold txn_limbo_read_rollback
      rw [hM]
    refine hnoop _ ?_
    show rollbackRevAux lsn R.reverse.reverse = none
    rw [List.reverse_reverse]
    exact rollbackRevAux_idem h1

/-- C8: both local record applications are idempotent: re-running
`apply_confirm(p)` or `apply_rollback(p)` immediately after itself leaves
the limbo — queue structure, entry flags and counters — exactly as after
the first run. -/
theorem C8_confirm_rollback_idempotent (L : TxnLimbo) (lsn : Int) :
    txn_limbo_read_confirm (txn_limbo_read_confirm L lsn) lsn =
      txn_limbo_read_confirm L lsn ∧
    txn_limbo_read_rollback (txn_limbo_read_rollback L lsn) lsn =
      txn_limbo_read_rollback L lsn := by
  constructor
  · show ({ L with queue := txn_limbo_read_confirm_q lsn (txn_limbo_read_confirm_q lsn L.queue) } : TxnLimbo) = { L with queue := txn_limbo_read_confirm_q lsn L.queue }
    rw [read_confirm_q_idem]
  · exact read_rollback_idem L lsn

/-- `find?` over an appended list. -/
theorem find?_append {α : Type} (p : α → Bool) :
    ∀ l₁ l₂ : List α, (l₁ ++ l₂).find? p =
      match l₁.find? p with
      | some a => some a
      | none => l₂.find? p := by
  intro l₁
  induction l₁ with
  | nil => intro l₂; rfl
  | cons a l ih =>
    intro l₂
    by_cases hpa : p a = true
    · rw [List.cons_append, List.find?_cons_of_pos _ hpa,
        List.find?_cons_of_pos _ hpa]
    · have hpa' : ¬ p a = true := hpa
      rw [List.cons_append, List.find?_cons_of_neg _ hpa',
        List.find?_cons_of_neg _ hpa', ih]

/-- The scan of `txn_limbo_on_parameters_change` computes the lsn of the
last sync entry at quorum, with the accumulator as fallback. -/
theorem paramsScan_eq_lastSync (quorum : Nat) :
    ∀ (q : List TxnLimboEntry) (c : Int),
      paramsScan quorum q c =
        match q.reverse.find?
            (fun e => e.txn.wait_ack && decide (quorum ≤ e.ack_count)) with
        | some a => a.lsn
        | none => c := by
  intro q
  induction q with
  | nil => intro c; rfl
  | cons e t ih =>
    intro c
    have hrev : (e :: t).reverse = t.reverse ++ [e] := by simp
    rw [hrev, find?_append]
    by_cases hasync : e.txn.wait_ack = false
    · have hpe : (fun x : TxnLimboEntry =>
          x.txn.wait_ack && decide (quorum ≤ x.ack_count)) e = false := by
        simp [hasync]
      rw [show paramsScan quorum (e :: t) c = paramsScan quorum t c by
        simp [paramsScan, hasync]]
      rw [ih c]
      cases t.reverse.find?
          (fun x => x.txn.wait_ack && decide (quorum ≤ x.ack_count)) with
      | some a => rfl
      | none => rw [List.find?_cons_of_neg _ (by simp [hpe]), List.find?_nil]
    · have hsync : e.txn.wait_ack = true := by
        cases hwa : e.txn.wait_ack
        · exact absurd hwa hasync
        · rfl
      by_cases hbelow : e.ack_count < quorum
      · have hpe : (fun x : TxnLimboEntry =>
            x.txn.wait_ack && decide (quorum ≤ x.ack_count)) e = false := by
          simp only [hsync, Bool.true_and]
          exact decide_eq_false (by omega)
        rw [show paramsScan quorum (e :: t) c = paramsScan quorum t c by
          simp [paramsScan, hasync, hbelow]]
        rw [ih c]
        cases t.reverse.find?
            (fun x => x.txn.wait_ack && decide (quorum ≤ x.ack_count)) with
        | some a => rfl
        | none => rw [List.find?_cons_of_neg _ (by simp [hpe]), List.find?_nil]
      · have hpe : (fun x : TxnLimboEntry =>
            x.txn.wait_ack && decide (quorum ≤ x.ack_count)) e = true := by
          simp only [hsync, Bool.true_and]
          exact decide_eq_true (by omega)
        rw [show paramsScan quorum (e :: t) c = paramsScan quorum t e.lsn by
          simp [paramsScan, hasync, hbelow]]
        rw [ih e.lsn]
        cases t.reverse.find?
            (fun x => x.txn.wait_ack && decide (quorum ≤ x.ack_count)) with
        | some a => rfl
        | none =>
          have hfind : List.find?
              (fun x => x.txn.wait_ack && decide (quorum ≤ x.ack_count)) [e] =
                some e := List.find?_cons_of_pos _ hpe
          rw [hfind]

/-- C3 counterexample theorem: on `cexC3` with quorum 1 the longest prefix
with every sync entry at quorum is empty — by the claim no entry may be
confirmed — yet the operation empties the whole queue. -/
theorem C3_counterexample :
    cexC3.queue ≠ [] ∧
    cexC3.queue.takeWhile
      (fun e => !e.txn.wait_ack || decide (1 ≤ e.ack_count)) = [] ∧
    (txn_limbo_on_parameters_change 1 cexC3).queue = [] :=
  ⟨by decide, by decide, by decide⟩

/-- C3 (amended): for every queue, `txn_limbo_on_parameters_change`
confirms at the lsn of the **last** sync entry anywhere in the queue whose
`ack_count` has reached the current quorum (applying the CONFIRM locally
via `txn_limbo_read_confirm`), and does nothing when no sync entry is at
quorum or that lsn is not positive.  (When the sync `ack_count`s are
non-increasing along the queue — as they are for a locally owned queue —
this coincides with the claim's longest-prefix rule.) -/
theorem C3_params_change_confirms_last_at_quorum (quorum : Nat)
    (L : TxnLimbo) :
    txn_limbo_on_parameters_change quorum L =
      if 0 < lastSyncAtQuorumLsn quorum L.queue then
        txn_limbo_read_confirm L (lastSyncAtQuorumLsn quorum L.queue)
      else L := by
  unfold txn_limbo_on_parameters_change
  by_cases hq : L.queue = []
  · rw [if_pos hq]
    have hlast : lastSyncAtQuorumLsn quorum L.queue = -1 := by
      rw [hq]; rfl
    rw [hlast, if_neg (by omega)]
  · rw [if_neg hq]
    have hscan : paramsScan quorum L.queue (-1) =
        lastSyncAtQuorumLsn quorum L.queue := by
      rw [paramsScan_eq_lastSync]
      unfold lastSyncAtQuorumLsn
      rfl
    rw [hscan]
    rfl

/-- When every sync entry already walked is at or above the position, a
sync entry at or above the position appended at the far (queue-head) end
becomes `last_rollback` and everything is aborted. -/
theorem rollbackRevAux_append_allGE (lsn : Int) (x : TxnLimboEntry)
    (hx : x.txn.wait_ack = true) (hxl : lsn ≤ x.lsn) :
    ∀ r : List TxnLimboEntry,
      (∀ e ∈ r, e.txn.wait_ack = true → lsn ≤ e.lsn) →
      rollbackRevAux lsn (r ++ [x]) = some [] := by
  intro r
  induction r with
  | nil =>
    intro _
    have hge : ¬ x.lsn < lsn := not_lt.mpr hxl
    show rollbackRevAux lsn [x] = some []
    simp [rollbackRevAux, hx, hge]
  | cons a r' ih =>
    intro h
    have ha := h a (by simp)
    have hr' : ∀ e ∈ r', e.txn.wait_ack = true → lsn ≤ e.lsn :=
      fun e he => h e (by simp [he])
    rw [List.cons_append]
    by_cases hsync : a.txn.wait_ack = true
    · have hge : ¬ a.lsn < lsn := not_lt.mpr (ha hsync)
      rw [show rollbackRevAux lsn (a :: (r' ++ [x])) =
          some ((rollbackRevAux lsn (r' ++ [x])).getD (r' ++ [x])) by
        simp [rollbackRevAux, hsync, hge]]
      rw [ih hr']
      rfl
    · rw [show rollbackRevAux lsn (a :: (r' ++ [x])) =
          rollbackRevAux lsn (r' ++ [x]) by
        simp [rollbackRevAux, hsync]]
      exact ih hr'

/-- An entry that is not a sync entry at or above the position, appended at
the far (queue-head) end, is never reached as `last_rollback`: it simply
tags along with the kept remainder. -/
theorem rollbackRevAux_append_notGE (lsn : Int) (x : TxnLimboEntry)
    (hx : ¬ (x.txn.wait_ack = true ∧ lsn ≤ x.lsn)) :
    ∀ r : List TxnLimboEntry,
      rollbackRevAux lsn (r ++ [x]) =
        (rollbackRevAux lsn r).map (fun R => R ++ [x]) := by
  intro r
  induction r with
  | nil =>
    by_cases hsync : x.txn.wait_ack = true
    · have hlt : x.lsn < lsn := by
        by_contra hc
        exact hx ⟨hsync, not_lt.mp hc⟩
      show rollbackRevAux lsn [x] = none
      simp [rollbackRevAux, hsync, hlt]
    · show rollbackRevAux lsn [x] = none
      simp [rollbackRevAux, hsync]
  | cons a r' ih =>
    rw [List.cons_append]
    by_cases hbrk : a.txn.wait_ack ∧ a.lsn < lsn
    · rw [show rollbackRevAux lsn (a :: (r' ++ [x])) = none by
        simp [rollbackRevAux, hbrk]]
      rw [show rollbackRevAux lsn (a :: r') = none by
        simp [rollbackRevAux, hbrk]]
      rfl
    · by_cases hsync : a.txn.wait_ack = true
      · have hge : ¬ a.lsn < lsn := fun hlt => hbrk ⟨hsync, hlt⟩
        rw [show rollbackRevAux lsn (a :: (r' ++ [x])) =
            some ((rollbackRevAux lsn (r' ++ [x])).getD (r' ++ [x])) by
          simp [rollbackRevAux, hsync, hge]]
        rw [show rollbackRevAux lsn (a :: r') =
            some ((rollbackRevAux lsn r').getD r') by
          simp [rollbackRevAux, hsync, hge]]
        rw [ih]
        cases rollbackRevAux lsn r' with
        | none => rfl
        | some R => rfl
      · rw [show rollbackRevAux lsn (a :: (r' ++ [x])) =
            rollbackRevAux lsn (r' ++ [x]) by
          simp [rollbackRevAux, hsync]]
        rw [show rollbackRevAux lsn (a :: r') = rollbackRevAux lsn r' by
          simp [rollbackRevAux, hsync]]
        exact ih

/-- The queue of `txn_limbo_read_rollback` is `txn_limbo_read_rollback_q`. -/
theorem read_rollback_queue (L : TxnLimbo) (lsn : Int) :
    (txn_limbo_read_rollback L lsn).queue =
      txn_limbo_read_rollback_q lsn L.queue := by
  unfold txn_limbo_read_rollback txn_limbo_read_rollback_q
  cases rollbackRevAux lsn L.queue.reverse with
  | none => rfl
  | some r => rfl

/-- On a queue whose sync entries carry non-decreasing positions, the
rollback walk keeps exactly the prefix before the earliest sync entry at or
above the position and aborts everything from there to the tail. -/
theorem read_rollback_q_eq_takeWhile (lsn : Int) :
    ∀ q : List TxnLimboEntry,
      q.Pairwise (fun a b => a.txn.wait_ack = true → b.txn.wait_ack = true →
        a.lsn ≤ b.lsn) →
      txn_limbo_read_rollback_q lsn q =
        q.takeWhile (fun e => !(e.txn.wait_ack && decide (lsn ≤ e.lsn))) := by
  intro q
  induction q with
  | nil => intro _; rfl
  | cons x t ih =>
    intro hpw
    have hxall := (List.pairwise_cons.mp hpw).1
    have ht := (List.pairwise_cons.mp hpw).2
    have hrev : (x :: t).reverse = t.reverse ++ [x] := by simp
    by_cases hx : x.txn.wait_ack = true ∧ lsn ≤ x.lsn
    · have hall : ∀ e ∈ t.reverse, e.txn.wait_ack = true → lsn ≤ e.lsn := by
        intro e he hsync
        exact le_trans hx.2 (hxall e (List.mem_reverse.mp he) hx.1 hsync)
      have haux := rollbackRevAux_append_allGE lsn x hx.1 hx.2 t.reverse hall
      have hpx : (!(x.txn.wait_ack && decide (lsn ≤ x.lsn))) = false := by
        simp [hx.1, hx.2]
      rw [List.takeWhile_cons, hpx]
      unfold txn_limbo_read_rollback_q
      rw [hrev, haux]
      rfl
    · have haux := rollbackRevAux_append_notGE lsn x hx t.reverse
      have hpx : (!(x.txn.wait_ack && decide (lsn ≤ x.lsn))) = true := by
        cases hwa : x.txn.wait_ack with
        | false => simp [hwa]
        | true =>
          have hnle : ¬ lsn ≤ x.lsn := fun hc => hx ⟨hwa, hc⟩
          simp [hwa, hnle]
      rw [List.takeWhile_cons, hpx]
      simp only [if_true]
      have hih := ih ht
      unfold txn_limbo_read_rollback_q
      rw [hrev, haux]
      unfold txn_limbo_read_rollback_q at hih
      cases hO : rollbackRevAux lsn t.reverse with
      | none =>
        rw [hO] at hih
        show x :: t = x :: List.takeWhile _ t
        rw [← hih]
      | some R =>
        rw [hO] at hih
        show (R ++ [x]).reverse = x :: List.takeWhile _ t
        rw [← hih]
        simp

/-- C6 counterexample theorem: a sync entry with `lsn ≥ 10` exists (the
head itself), so by the claim `apply_rollback(10)` must abort a suffix
containing it; but the operation leaves the queue — head included —
untouched. -/
theorem C6_counterexample :
    ({ txn := syncTxn, lsn := 10, ack_count := 0, is_commit := false,
       is_rollback := false } : TxnLimboEntry) ∈ cexC6.queue ∧
    syncTxn.wait_ack = true ∧ ((10 : Int) ≤ 10) ∧
    cexC6.queue ≠ [] ∧
    (txn_limbo_read_rollback cexC6 10).queue = cexC6.queue :=
  ⟨by decide, by decide, by decide, by decide, by decide⟩

/-- C6 (amended): provided the sync entries' positions are non-decreasing
along the queue (counting an unassigned position as `−1`),
`apply_rollback(pos)` keeps exactly the prefix of entries before the
earliest sync entry with `lsn ≥ pos` and aborts everything from that entry
to the tail; when no sync entry has `lsn ≥ pos` it is a no-op. -/
theorem C6_rollback_aborts_suffix (L : TxnLimbo) (pos : Int)
    (hsorted : L.queue.Pairwise (fun a b => a.txn.wait_ack = true →
      b.txn.wait_ack = true → a.lsn ≤ b.lsn)) :
    (txn_limbo_read_rollback L pos).queue =
      L.queue.takeWhile (fun e => !(e.txn.wait_ack && decide (pos ≤ e.lsn))) := by
  rw [read_rollback_queue]
  exact read_rollback_q_eq_takeWhile pos L.queue hsorted

/-- C6 amended-claim witness: on sync entries at lsns 10, 11, 12,
`apply_rollback(11)` aborts the entries at 11 and 12 and keeps the entry
at 10. -/
theorem C6_rollback_aborts_suffix_witness :
    wC6.queue.Pairwise (fun a b => a.txn.wait_ack = true →
      b.txn.wait_ack = true → a.lsn ≤ b.lsn) ∧
    (txn_limbo_read_rollback wC6 11).queue =
      wC6.queue.takeWhile
        (fun e => !(e.txn.wait_ack && decide ((11 : Int) ≤ e.lsn))) ∧
    wC6.queue.takeWhile
        (fun e => !(e.txn.wait_ack && decide ((11 : Int) ≤ e.lsn))) =
      [{ txn := syncTxn, lsn := 10, ack_count := 0,
         is_commit := false, is_rollback := false }] :=
  ⟨by decide, C6_rollback_aborts_suffix wC6 11 (by decide), by decide⟩

end Tarantool
